import Mathlib

/-!
Verification of the cookie-fun batch-analysis engine: the batching stage
(src/analysis/pipelines/cookie_fun_batched_analysis.py), the recursion stage
(src/analysis/pipelines/recursion_pipeline.py), the stage-composition operator
(src/analysis/pipelines/_base.py) and the fingerprint/cache-key logic
(src/app/storage/cookie_fun.py), shallowly embedded as pure Lean functions.
-/

namespace CookieFun

/-- A Python value as it occurs in the metadata dictionaries of the engine. -/
inductive PyVal where
  | nat (n : Nat)
  | bool (b : Bool)
  | str (s : String)
  deriving DecidableEq, Repr

/-- A Python dict with string keys, modelled as its entry sequence.  A dict
literal writes its entries in order, and a splat-merge appends the entries of
the splatted dict; on a key collision the later entry wins, which is what
`pyLookup` implements by scanning left to right and keeping the last match. -/
abbrev PyDict := List (String × PyVal)

/-- Key lookup in a `PyDict`: the last entry for the key wins, matching the
semantics of Python dict construction where later entries override earlier
ones. -/
def pyLookup (d : PyDict) (k : String) : Option PyVal :=
  d.foldl (fun acc kv => if kv.1 = k then some kv.2 else acc) none

namespace CookieFunBatchedAnalysisPipeline

/-- The batch-formation loop of `CookieFunBatchedAnalysisPipeline.run`
(src/analysis/pipelines/cookie_fun_batched_analysis.py, lines 54-69).
Arguments beyond the configuration are: the remaining input, the running
`current_batch`, and the sealed `batches` so far; the result is the final
sealed batch list together with the part of the input that the loop never
consumed.  Mirrors the Python loop exactly: a record failing the filter is
skipped (the `continue` also skips the cap check); an accepted record is
appended to the running batch; the running batch is sealed the instant it
reaches `batch_size`; the loop breaks as soon as `max_batches` batches are
sealed; after the loop, a non-empty running batch is sealed as the final
batch.  The post-loop `if current_batch:` seal is inlined into each exit
point (on the seal-and-break path the running batch has just been emptied, so
nothing is appended; on the break-without-seal path the running batch is
non-empty, having just received a record, so it is appended). -/
def formBatchesAux {α : Type} (filter_agents : α → Bool) (batch_size max_batches : Nat) :
    List α → List α → List (List α) → List (List α) × List α
  | [], current_batch, batches =>
      (if current_batch.isEmpty then batches else batches ++ [current_batch], [])
  | record :: rest, current_batch, batches =>
      if filter_agents record then
        if batch_size ≤ (current_batch ++ [record]).length then
          if max_batches ≤ (batches ++ [current_batch ++ [record]]).length then
            (batches ++ [current_batch ++ [record]], rest)
          else
            formBatchesAux filter_agents batch_size max_batches rest []
              (batches ++ [current_batch ++ [record]])
        else
          if max_batches ≤ batches.length then
            (batches ++ [current_batch ++ [record]], rest)
          else
            formBatchesAux filter_agents batch_size max_batches rest
              (current_batch ++ [record]) batches
      else
        formBatchesAux filter_agents batch_size max_batches rest current_batch batches

/-- Batch formation from the start of the input (empty running batch, no
sealed batches), returning the sealed batches and the unconsumed remainder of
the input sequence. -/
def formBatchesRest {α : Type} (filter_agents : α → Bool) (batch_size max_batches : Nat)
    (input : List α) : List (List α) × List α :=
  formBatchesAux filter_agents batch_size max_batches input [] []

/-- The sealed batch list produced by `CookieFunBatchedAnalysisPipeline.run`
for a given input. -/
def formBatches {α : Type} (filter_agents : α → Bool) (batch_size max_batches : Nat)
    (input : List α) : List (List α) :=
  (formBatchesRest filter_agents batch_size max_batches input).1

/-- Loop invariant for the cap on sealed batches: as long as strictly fewer
than `max_batches` batches have been sealed on entry, the loop can never
finish with more than `max_batches` sealed batches. -/
theorem formBatchesAux_length_le {α : Type} (f : α → Bool) (bs mb : Nat) (input : List α) :
    ∀ (current : List α) (batches : List (List α)), batches.length < mb →
      ((formBatchesAux f bs mb input current batches).1).length ≤ mb := by
  induction input with
  | nil =>
      intro current batches h
      simp only [formBatchesAux]
      split
      · omega
      · simp only [List.length_append, List.length_singleton]
        omega
  | cons record rest ih =>
      intro current batches h
      simp only [formBatchesAux]
      split
      · split
        · split
          · simp only [List.length_append, List.length_singleton]
            omega
          · refine ih [] _ ?_
            simp only [List.length_append, List.length_singleton] at *
            omega
        · split
          · omega
          · exact ih _ _ h
      · exact ih current batches h

/-- Every batch sealed by the formation loop is non-empty, provided every
already-sealed batch is: batches are only sealed right after a record was
appended to the running batch, or (at exhaustion) when the running batch is
checked to be non-empty. -/
theorem formBatchesAux_ne_nil {α : Type} (f : α → Bool) (bs mb : Nat) (input : List α) :
    ∀ (current : List α) (batches : List (List α)), (∀ b ∈ batches, b ≠ []) →
      ∀ b ∈ (formBatchesAux f bs mb input current batches).1, b ≠ [] := by
  induction input with
  | nil =>
      intro current batches hb b hmem
      simp only [formBatchesAux] at hmem
      split at hmem
      · exact hb b hmem
      · rcases List.mem_append.1 hmem with h | h
        · exact hb b h
        · rcases List.mem_singleton.1 h with rfl
          next hne => simpa [List.isEmpty_iff] using hne
  | cons record rest ih =>
      intro current batches hb b hmem
      have hseal : ∀ c ∈ batches ++ [current ++ [record]], c ≠ [] := by
        intro c hc
        rcases List.mem_append.1 hc with h | h
        · exact hb c h
        · rcases List.mem_singleton.1 h with rfl
          simp
      simp only [formBatchesAux] at hmem
      split at hmem
      · split at hmem
        · split at hmem
          · exact hseal b hmem
          · exact ih [] _ hseal b hmem
        · split at hmem
          · exact hseal b hmem
          · exact ih _ _ hb b hmem
      · exact ih current batches hb b hmem

end CookieFunBatchedAnalysisPipeline

/-- The shape of the values that `RecursionPipeline._run` yields, as a Python
dynamic value (src/analysis/pipelines/recursion_pipeline.py).  Every yield is
a 2-tuple `(x, tag)` whose first component is either a raw result of the inner
stage (line 48) or a previously yielded tuple coming out of the recursive call
(line 62), hence the inductive nesting. -/
inductive RVal (I O : Type) where
  | res (r : O)
  | pair (v : RVal I O) (tag : List I)
  deriving DecidableEq, Repr

/-- The error raised by the recursion stage's depth guard, line 28: a
ValueError whose message interpolates the configured maximum depth; the
value carried here is the one interpolated into that message. -/
inductive RecursionError where
  | maxDepthExceeded (max_depth : Nat)
  deriving DecidableEq, Repr

namespace RecursionPipeline

/-- The metadata dict built at each depth by `RecursionPipeline._run`
(lines 33-36): a fresh dict literal `{**metadata, "recursion_depth": depth}`;
the caller's entries are splatted in first and the depth entry appended. -/
def mergedMetadata (metadata : PyDict) (depth : Nat) : PyDict :=
  metadata ++ [("recursion_depth", PyVal.nat depth)]

/-- Embedding of `RecursionPipeline._run` (lines 26-62), with the inner stage abstracted as
a function from the (merged) metadata and the materialized input list to its
result list.  Returns, as an async generator run to completion does: the list
of yielded values in order, the log of inner-stage invocations as
`(depth, materialized input list)` pairs, and the error terminating the run,
if any (values yielded before the error were already delivered, so they stay
in the list).  At a given depth: the depth guard fires first; otherwise the
input is materialized, the inner stage runs on it, each of its results `r` is
yielded as the tuple `(r, input_list)` (line 48); if the stopper declines,
`mapper` produces the next input list and every value yielded by the
recursive call is re-yielded wrapped as `(item, sub_input_list)` (line 62). -/
def runAux {I O : Type} (pipeline : PyDict → List I → List O) (mapper : List O → List I)
    (stopper : List O → Bool) (max_depth : Nat) (metadata : PyDict) (input : List I)
    (depth : Nat) : List (RVal I O) × List (Nat × List I) × Option RecursionError :=
  if max_depth ≤ depth then ([], [], some (.maxDepthExceeded max_depth))
  else
    let input_list := input
    let metadata' := mergedMetadata metadata depth
    let results := pipeline metadata' input_list
    let own := results.map (fun r => RVal.pair (.res r) input_list)
    if stopper results then (own, [(depth, input_list)], none)
    else
      let sub_input_list := mapper results
      let rec' := runAux pipeline mapper stopper max_depth metadata' sub_input_list (depth + 1)
      (own ++ rec'.1.map (fun v => RVal.pair v sub_input_list),
        (depth, input_list) :: rec'.2.1, rec'.2.2)
termination_by max_depth - depth
decreasing_by omega

/-- Embedding of `RecursionPipeline.run` (lines 22-24): the entry point starts the
recursion at depth 0. -/
def run {I O : Type} (pipeline : PyDict → List I → List O) (mapper : List O → List I)
    (stopper : List O → Bool) (max_depth : Nat) (metadata : PyDict) (input : List I) :
    List (RVal I O) × List (Nat × List I) × Option RecursionError :=
  runAux pipeline mapper stopper max_depth metadata input 0

end RecursionPipeline

/-- C1: evaluating the recursion stage on a concrete configuration that
recurses exactly once.  The inner stage maps each input `n` to `n + 1`, the
mapper re-feeds the results, and the stopper fires once some result reaches 2.
The depth-0 result `1` is yielded as the flat pair `(1, [0])`, but the depth-1
result `2` comes out as the nested value `((2, [1]), [1])` — wrapped once by
the depth-1 frame and again by line 62 of the depth-0 frame — not as the flat
pair `(2, [1])` the claim (and the code's own return type
`AsyncIterable[Tuple[O, List[I]]]`) requires. -/
theorem claim_C1_nested_yield :
    RecursionPipeline.run (fun _ l => l.map (· + 1)) (fun rs => rs)
        (fun rs => rs.any (fun r => 2 ≤ r)) 10 [] [0] =
      ([RVal.pair (RVal.res 1) [0], RVal.pair (RVal.pair (RVal.res 2) [1]) [1]],
        [(0, [0]), (1, [1])], none) ∧
    RVal.pair (RVal.pair (RVal.res 2) [1]) [1] ≠ RVal.pair (RVal.res 2) [1] := by
  constructor
  · simp [RecursionPipeline.run, RecursionPipeline.runAux, RecursionPipeline.mergedMetadata]
  · simp

/-- C6: the depth guard.  First conjunct: at any invocation with
`depth ≥ maxDepth` the recursion stage yields nothing, invokes the inner stage
on nothing (empty invocation log, so no work is attempted at that depth), and
fails with `maxDepthExceeded` carrying `maxDepth` — which equals the
triggering depth for any run started at depth 0, since depth grows by 1.
Second conjunct: the spec's concrete case — `maxDepth = 2` with a stopper
that never fires runs the inner stage exactly at depths 0 and 1 and then
fails with the depth-2 guard. -/
theorem claim_C6_depth_guard :
    (∀ {I O : Type} (pipeline : PyDict → List I → List O) (mapper : List O → List I)
        (stopper : List O → Bool) (max_depth : Nat) (metadata : PyDict) (input : List I)
        (depth : Nat), max_depth ≤ depth →
        RecursionPipeline.runAux pipeline mapper stopper max_depth metadata input depth =
          ([], [], some (.maxDepthExceeded max_depth))) ∧
    ((RecursionPipeline.run (fun _ (l : List Nat) => l) (fun rs => rs) (fun _ => false)
        2 [] [0]).2.1.map Prod.fst = [0, 1] ∧
      (RecursionPipeline.run (fun _ (l : List Nat) => l) (fun rs => rs) (fun _ => false)
        2 [] [0]).2.2 = some (.maxDepthExceeded 2)) := by
  refine ⟨?_, ?_⟩
  · intro I O pipeline mapper stopper max_depth metadata input depth hle
    rw [RecursionPipeline.runAux]
    simp [hle]
  · constructor <;>
      simp [RecursionPipeline.run, RecursionPipeline.runAux, RecursionPipeline.mergedMetadata]

/-- Witness for C6: the guard applied at the concrete invocation
`depth = 3 ≥ maxDepth = 2`. -/
theorem claim_C6_depth_guard_witness :
    2 ≤ 3 ∧
      RecursionPipeline.runAux (fun _ (l : List Nat) => l) (fun rs => rs) (fun _ => false)
          2 [] [5] 3 = ([], [], some (.maxDepthExceeded 2)) :=
  ⟨by decide,
    claim_C6_depth_guard.1 (fun _ (l : List Nat) => l) (fun rs => rs) (fun _ => false)
      2 [] [5] 3 (by decide)⟩

/-- C2 counterexample: with `maxBatches = 0` (and `batchSize = 2`) a single
accepted record makes the loop break with a non-empty running batch, which the
post-loop seal then appends, so one batch is sealed — strictly more than
`maxBatches`. -/
theorem claim_C2_counterexample :
    (CookieFunBatchedAnalysisPipeline.formBatches (fun _ : Nat => true) 2 0 [0]).length = 1 ∧
      ¬ ((CookieFunBatchedAnalysisPipeline.formBatches (fun _ : Nat => true) 2 0 [0]).length ≤ 0) := by
  decide

/-- C2 (amended): for every input sequence, filter and configuration with
`maxBatches ≥ 1`, the total number of sealed batches never exceeds
`maxBatches`; in particular a trailing partial batch sealed at input
exhaustion never pushes the total above `maxBatches`. -/
theorem claim_C2_batch_cap {α : Type} (f : α → Bool) (bs mb : Nat) (input : List α)
    (h : 1 ≤ mb) :
    (CookieFunBatchedAnalysisPipeline.formBatches f bs mb input).length ≤ mb :=
  CookieFunBatchedAnalysisPipeline.formBatchesAux_length_le f bs mb input [] []
    (by simpa using h)

/-- Witness for C2 (amended) at the spec's own example: `batchSize = 3`,
`maxBatches = 5`, four accepted records. -/
theorem claim_C2_batch_cap_witness :
    1 ≤ 5 ∧
      (CookieFunBatchedAnalysisPipeline.formBatches (fun _ : Nat => true) 3 5 [0, 1, 2, 3]).length ≤ 5 :=
  ⟨by decide, claim_C2_batch_cap (fun _ : Nat => true) 3 5 [0, 1, 2, 3] (by decide)⟩

/-- C7: with `batchSize = 2`, `maxBatches = 1`, input `[A,B,C,D]` and an
accept-all filter, the loop seals exactly the batch `[A,B]` and never consumes
`C` or `D`: they remain in the unconsumed remainder of the input. -/
theorem claim_C7_consumption_stops :
    CookieFunBatchedAnalysisPipeline.formBatchesRest (fun _ : Nat => true) 2 1 [0, 1, 2, 3] =
      ([[0, 1]], [2, 3]) := by
  decide

namespace BatchAnalysisRecord

/-- The character sequence of Python's `str(id)` for a non-negative integer
id: its decimal digits, most significant first. -/
def natToChars (n : Nat) : List Char :=
  if n < 10 then [Nat.digitChar n]
  else natToChars (n / 10) ++ [Nat.digitChar (n % 10)]
termination_by n
decreasing_by exact Nat.div_lt_self (by omega) (by norm_num)

/-- Python's `",".join(strs)` at the character level: the pieces concatenated
with a single comma between consecutive pieces. -/
def commaJoin : List (List Char) → List Char
  | [] => []
  | [s] => s
  | s :: s' :: rest => s ++ ',' :: commaJoin (s' :: rest)

/-- Embedding of `BatchAnalysisRecord.serialize_agent_ids` (src/app/storage/cookie_fun.py,
lines 86-88): `",".join([str(id) for id in sorted(agent_ids)])` — the ids
sorted ascending, rendered in decimal, joined by commas. -/
def serialize_agent_ids (agent_ids : List Nat) : String :=
  ⟨commaJoin ((agent_ids.insertionSort (· ≤ ·)).map natToChars)⟩

theorem digitChar_ne_comma : ∀ m, m < 10 → Nat.digitChar m ≠ ',' := by decide

theorem digitChar_inj_lt : ∀ a, a < 10 → ∀ b, b < 10 →
    Nat.digitChar a = Nat.digitChar b → a = b := by decide

theorem natToChars_ne_nil (n : Nat) : natToChars n ≠ [] := by
  rw [natToChars]
  split <;> simp

theorem comma_not_mem_natToChars (n : Nat) : ',' ∉ natToChars n := by
  induction n using Nat.strong_induction_on with
  | _ n ih =>
    rw [natToChars]
    split
    · next hlt => simp [Ne.symm (digitChar_ne_comma n hlt)]
    · intro hmem
      rcases List.mem_append.1 hmem with h | h
      · exact ih (n / 10) (Nat.div_lt_self (by omega) (by norm_num)) h
      · rcases List.mem_singleton.1 h with h
        exact digitChar_ne_comma (n % 10) (Nat.mod_lt _ (by norm_num)) h.symm

theorem append_singleton_inj {α : Type} {a b : List α} {x y : α}
    (h : a ++ [x] = b ++ [y]) : a = b ∧ x = y := by
  have h' := congrArg List.reverse h
  simp only [List.reverse_append, List.reverse_singleton, List.singleton_append,
    List.cons.injEq] at h'
  exact ⟨List.reverse_injective h'.2, h'.1⟩

theorem natToChars_inj : ∀ m n : Nat, natToChars m = natToChars n → m = n := by
  intro m
  induction m using Nat.strong_induction_on with
  | _ m ih =>
    intro n h
    have hlt : ∀ k, k < 10 → natToChars k = [Nat.digitChar k] := fun k hk => by
      rw [natToChars, if_pos hk]
    have hge : ∀ k, ¬ k < 10 →
        natToChars k = natToChars (k / 10) ++ [Nat.digitChar (k % 10)] := fun k hk => by
      rw [natToChars, if_neg hk]
    by_cases hm : m < 10 <;> by_cases hn : n < 10
    · rw [hlt m hm, hlt n hn] at h
      exact digitChar_inj_lt m hm n hn (List.singleton_injective h)
    · rw [hlt m hm, hge n hn] at h
      have hlen := congrArg List.length h
      have := List.length_pos.2 (natToChars_ne_nil (n / 10))
      simp only [List.length_singleton, List.length_append] at hlen
      omega
    · rw [hge m hm, hlt n hn] at h
      have hlen := congrArg List.length h
      have := List.length_pos.2 (natToChars_ne_nil (m / 10))
      simp only [List.length_singleton, List.length_append] at hlen
      omega
    · rw [hge m hm, hge n hn] at h
      obtain ⟨h₁, h₂⟩ := append_singleton_inj h
      have hdiv : m / 10 = n / 10 :=
        ih (m / 10) (Nat.div_lt_self (by omega) (by norm_num)) (n / 10) h₁
      have hmod : m % 10 = n % 10 :=
        digitChar_inj_lt (m % 10) (Nat.mod_lt _ (by norm_num))
          (n % 10) (Nat.mod_lt _ (by norm_num)) h₂
      omega

theorem chop_comma {r₁ r₂ : List Char} :
    ∀ (s₁ s₂ : List Char), ',' ∉ s₁ → ',' ∉ s₂ →
      s₁ ++ ',' :: r₁ = s₂ ++ ',' :: r₂ → s₁ = s₂ ∧ r₁ = r₂ := by
  intro s₁
  induction s₁ with
  | nil =>
      intro s₂ h₁ h₂ h
      cases s₂ with
      | nil => simpa using h
      | cons c s₂' =>
          simp only [List.nil_append, List.cons_append, List.cons.injEq] at h
          exact absurd (h.1 ▸ List.mem_cons_self c s₂') h₂
  | cons c s₁' ihs =>
      intro s₂ h₁ h₂ h
      cases s₂ with
      | nil =>
          simp only [List.cons_append, List.nil_append, List.cons.injEq] at h
          exact absurd (h.1 ▸ List.mem_cons_self c s₁') h₁
      | cons c' s₂' =>
          simp only [List.cons_append, List.cons.injEq] at h
          have hrec := ihs s₂' (fun hc => h₁ (List.mem_cons_of_mem _ hc))
            (fun hc => h₂ (List.mem_cons_of_mem _ hc)) h.2
          exact ⟨by rw [h.1, hrec.1], hrec.2⟩

theorem commaJoin_inj :
    ∀ (ts₁ ts₂ : List (List Char)),
      (∀ t ∈ ts₁, t ≠ [] ∧ ',' ∉ t) → (∀ t ∈ ts₂, t ≠ [] ∧ ',' ∉ t) →
      commaJoin ts₁ = commaJoin ts₂ → ts₁ = ts₂ := by
  intro ts₁
  induction ts₁ with
  | nil =>
      intro ts₂ h₁ h₂ h
      match ts₂ with
      | [] => rfl
      | [t] => exact absurd (h.symm) (h₂ t (by simp)).1
      | t :: t' :: r =>
          rw [commaJoin, commaJoin] at h
          rcases List.append_eq_nil.1 h.symm with ⟨_, hcons⟩
          exact absurd hcons (by simp)
  | cons t ts₁' iht =>
      intro ts₂ h₁ h₂ h
      match ts₁', ts₂ with
      | [], [] => exact absurd h (h₁ t (by simp)).1
      | [], [u] => rw [commaJoin, commaJoin] at h; rw [h]
      | [], u :: u' :: r =>
          rw [commaJoin, commaJoin] at h
          have : ',' ∈ t := h ▸ List.mem_append_right u (List.mem_cons_self _ _)
          exact absurd this (h₁ t (by simp)).2
      | t'' :: r'', [] =>
          rw [commaJoin, commaJoin] at h
          rcases List.append_eq_nil.1 h with ⟨_, hcons⟩
          exact absurd hcons (by simp)
      | t'' :: r'', [u] =>
          rw [commaJoin, commaJoin] at h
          have : ',' ∈ u := h ▸ List.mem_append_right t (List.mem_cons_self _ _)
          exact absurd this (h₂ u (by simp)).2
      | t'' :: r'', u :: u' :: s =>
          rw [commaJoin, commaJoin] at h
          obtain ⟨hhead, htail⟩ := chop_comma t u (h₁ t (by simp)).2 (h₂ u (by simp)).2 h
          have := iht (u' :: s) (fun x hx => h₁ x (List.mem_cons_of_mem _ hx))
            (fun x hx => h₂ x (List.mem_cons_of_mem _ hx)) htail
          rw [hhead, this]

end BatchAnalysisRecord

/-- C4: the fingerprint is invariant under permutation of the id list, and
injective on id multisets — two id lists give the same fingerprint exactly
when they are permutations of each other. -/
theorem claim_C4_fingerprint :
    (∀ l₁ l₂ : List Nat, l₁.Perm l₂ →
        BatchAnalysisRecord.serialize_agent_ids l₁ = BatchAnalysisRecord.serialize_agent_ids l₂) ∧
    (∀ l₁ l₂ : List Nat,
        BatchAnalysisRecord.serialize_agent_ids l₁ = BatchAnalysisRecord.serialize_agent_ids l₂ →
        l₁.Perm l₂) := by
  constructor
  · intro l₁ l₂ hp
    have hs : l₁.insertionSort (· ≤ ·) = l₂.insertionSort (· ≤ ·) :=
      List.eq_of_perm_of_sorted
        ((List.perm_insertionSort _ l₁).trans (hp.trans (List.perm_insertionSort _ l₂).symm))
        (List.sorted_insertionSort _ l₁) (List.sorted_insertionSort _ l₂)
    unfold BatchAnalysisRecord.serialize_agent_ids
    rw [hs]
  · intro l₁ l₂ h
    unfold BatchAnalysisRecord.serialize_agent_ids at h
    have hdata : BatchAnalysisRecord.commaJoin ((l₁.insertionSort (· ≤ ·)).map
          BatchAnalysisRecord.natToChars) =
        BatchAnalysisRecord.commaJoin ((l₂.insertionSort (· ≤ ·)).map
          BatchAnalysisRecord.natToChars) :=
      congrArg String.data h
    have hcond : ∀ (l : List Nat), ∀ t ∈ l.map BatchAnalysisRecord.natToChars,
        t ≠ [] ∧ ',' ∉ t := by
      intro l t ht
      rcases List.mem_map.1 ht with ⟨n, _, rfl⟩
      exact ⟨BatchAnalysisRecord.natToChars_ne_nil n,
        BatchAnalysisRecord.comma_not_mem_natToChars n⟩
    have hmap := BatchAnalysisRecord.commaJoin_inj _ _ (hcond _) (hcond _) hdata
    have hsort : l₁.insertionSort (· ≤ ·) = l₂.insertionSort (· ≤ ·) :=
      List.map_injective_iff.2 (fun a b => BatchAnalysisRecord.natToChars_inj a b) hmap
    exact (List.perm_insertionSort _ l₁).symm.trans
      (hsort ▸ List.perm_insertionSort _ l₂)

/-- Witness for C4 at the spec's own examples: `[3,1,2]` and `[1,2,3]` share a
fingerprint, `[1,2]` and `[1,2,3]` do not. -/
theorem claim_C4_fingerprint_witness :
    BatchAnalysisRecord.serialize_agent_ids [3, 1, 2] =
        BatchAnalysisRecord.serialize_agent_ids [1, 2, 3] ∧
      BatchAnalysisRecord.serialize_agent_ids [1, 2] ≠
        BatchAnalysisRecord.serialize_agent_ids [1, 2, 3] :=
  ⟨claim_C4_fingerprint.1 [3, 1, 2] [1, 2, 3] (by decide),
    fun h => absurd (claim_C4_fingerprint.2 [1, 2] [1, 2, 3] h) (by decide)⟩

/-- One row of `historic_agent_records` as the batching stage reads it
(src/app/storage/cookie_fun.py, lines 54-63): a stable integer id, the
ingestion run it belongs to, and an opaque JSON payload of type `P`. -/
structure HistoricAgentRecord (P : Type) where
  id : Nat
  ingestion_run_id : Nat
  data : P
  deriving DecidableEq, Repr

/-- One row of `batch_analysis_records` (src/app/storage/cookie_fun.py,
lines 72-84).  `created_at` ordering is represented by the position of the
row in the store list (rows are appended in insertion order). -/
structure BatchAnalysisRecord where
  id : Nat
  ingestion_run_id : Nat
  input_agent_ids : String
  analysis_type : String
  analysis : String
  top_agent_ids : List Nat
  meta : PyDict
  deriving DecidableEq, Repr

/-- Embedding of `BatchAnalysisRecord.query` (src/app/storage/cookie_fun.py, lines 90-93):
select the rows matching `(run_id, input_agent_ids, analysis_type)`, order by
`created_at` descending and take the first — i.e. the most recently inserted
matching row of the store. -/
def BatchAnalysisRecord.query (store : List BatchAnalysisRecord) (analysis_type : String)
    (run_id : Nat) (input_agent_ids : String) : Option BatchAnalysisRecord :=
  (store.filter (fun r => r.ingestion_run_id == run_id &&
    r.input_agent_ids == input_agent_ids && r.analysis_type == analysis_type)).getLast?

/-- The errors a per-batch work unit can raise: the
`ValueError("Batch is empty")` configuration error
(src/analysis/pipelines/cookie_fun_batched_analysis.py, lines 93-94), or a
failure of one of the external collaborators (`Analyze` / `SelectTop`),
carried as a value of type `E`. -/
inductive EngineError (E : Type) where
  | configurationError
  | collaborator (e : E)
  deriving DecidableEq, Repr

/-- The configuration of `CookieFunBatchedAnalysisPipeline` needed by the
per-batch work unit: the analysis-type tag, the two external callbacks (each
may fail with an error of type `E`), and the cache-bypass switch. -/
structure BatchedAnalysisConfig (P E : Type) where
  analysis_type : String
  agent : List P → Except E String
  identify_top_agents : List (HistoricAgentRecord P) → String → Except E (List Nat)
  ignore_cached : Bool

namespace CookieFunBatchedAnalysisPipeline

/-- The cache-miss path of `CookieFunBatchedAnalysisPipeline._run_agent`
(lines 105-123): invoke the agent on the batch payloads, invoke the top-agent
selection on the batch and the analysis text, build the new record and append
it to the store, which assigns the next identity.  A collaborator failure
propagates; the final `Nat` counts the `Analyze` invocations performed (here
always 1, and `SelectTop` is invoked on exactly the same path). -/
def run_agent_compute {P E : Type} (cfg : BatchedAnalysisConfig P E) (metadata : PyDict)
    (store : List BatchAnalysisRecord) (run_id : Nat) (input_agent_ids : String)
    (batch : List (HistoricAgentRecord P)) :
    Except (EngineError E) (BatchAnalysisRecord × List BatchAnalysisRecord × Nat) :=
  match cfg.agent (batch.map (·.data)) with
  | .error e => .error (.collaborator e)
  | .ok analysis =>
    match cfg.identify_top_agents batch analysis with
    | .error e => .error (.collaborator e)
    | .ok top_agent_ids =>
      let record : BatchAnalysisRecord :=
        { id := store.length + 1
          ingestion_run_id := run_id
          input_agent_ids := input_agent_ids
          analysis_type := cfg.analysis_type
          analysis := analysis
          top_agent_ids := top_agent_ids
          meta := metadata }
      .ok (record, store ++ [record], 1)

/-- Embedding of `CookieFunBatchedAnalysisPipeline._run_agent` (lines 92-123): reject an
empty batch; compute the run scope from the first record and the fingerprint
from the batch's ids; query the store and, on a hit with `ignore_cached`
false, return the cached record without touching the collaborators (0
`Analyze` invocations) and without growing the store; otherwise recompute. -/
def run_agent {P E : Type} (cfg : BatchedAnalysisConfig P E) (metadata : PyDict)
    (store : List BatchAnalysisRecord) :
    List (HistoricAgentRecord P) →
      Except (EngineError E) (BatchAnalysisRecord × List BatchAnalysisRecord × Nat)
  | [] => .error .configurationError
  | first :: rest =>
    match BatchAnalysisRecord.query store cfg.analysis_type first.ingestion_run_id
        (BatchAnalysisRecord.serialize_agent_ids ((first :: rest).map (·.id))) with
    | some record =>
        if cfg.ignore_cached then
          run_agent_compute cfg metadata store first.ingestion_run_id
            (BatchAnalysisRecord.serialize_agent_ids ((first :: rest).map (·.id)))
            (first :: rest)
        else .ok (record, store, 0)
    | none =>
        run_agent_compute cfg metadata store first.ingestion_run_id
          (BatchAnalysisRecord.serialize_agent_ids ((first :: rest).map (·.id)))
          (first :: rest)

/-- A record freshly appended to the store is what `query` finds at its own
key: it is the most recently inserted matching row. -/
theorem query_append_self (store : List BatchAnalysisRecord) (r : BatchAnalysisRecord) :
    BatchAnalysisRecord.query (store ++ [r]) r.analysis_type r.ingestion_run_id
      r.input_agent_ids = some r := by
  unfold BatchAnalysisRecord.query
  rw [List.filter_append]
  simp

/-- The compute path never raises the empty-batch configuration error: its
failures are collaborator failures. -/
theorem run_agent_compute_ne_config {P E : Type} (cfg : BatchedAnalysisConfig P E)
    (metadata : PyDict) (store : List BatchAnalysisRecord) (run_id : Nat)
    (input_agent_ids : String) (batch : List (HistoricAgentRecord P)) :
    run_agent_compute cfg metadata store run_id input_agent_ids batch ≠
      .error .configurationError := by
  unfold run_agent_compute
  intro h
  split at h
  · simp at h
  · split at h <;> simp at h

end CookieFunBatchedAnalysisPipeline

/-- C3: the caching contract of the per-batch work unit.  First conjunct: on
a cache hit with `ignoreCache` false the existing record is returned, the
store is unchanged and `Analyze`/`SelectTop` are not invoked (invocation
count 0).  Second conjunct: starting from a store with no record at the key,
a first successful run performs exactly one `Analyze` invocation, and a
second run over the identical batch returns the very same record with the
store unchanged and no further invocation — one invocation in total, same
artifact identity. -/
theorem claim_C3_cache_idempotence :
    (∀ {P E : Type} (cfg : BatchedAnalysisConfig P E) (metadata : PyDict)
        (store : List BatchAnalysisRecord) (first : HistoricAgentRecord P)
        (rest : List (HistoricAgentRecord P)) (record : BatchAnalysisRecord),
        cfg.ignore_cached = false →
        BatchAnalysisRecord.query store cfg.analysis_type first.ingestion_run_id
            (BatchAnalysisRecord.serialize_agent_ids ((first :: rest).map (·.id))) =
          some record →
        CookieFunBatchedAnalysisPipeline.run_agent cfg metadata store (first :: rest) =
          .ok (record, store, 0)) ∧
    (∀ {P E : Type} (cfg : BatchedAnalysisConfig P E) (metadata : PyDict)
        (store : List BatchAnalysisRecord) (first : HistoricAgentRecord P)
        (rest : List (HistoricAgentRecord P)) (r₁ : BatchAnalysisRecord)
        (s₁ : List BatchAnalysisRecord) (n₁ : Nat),
        cfg.ignore_cached = false →
        BatchAnalysisRecord.query store cfg.analysis_type first.ingestion_run_id
            (BatchAnalysisRecord.serialize_agent_ids ((first :: rest).map (·.id))) = none →
        CookieFunBatchedAnalysisPipeline.run_agent cfg metadata store (first :: rest) =
          .ok (r₁, s₁, n₁) →
        n₁ = 1 ∧
          CookieFunBatchedAnalysisPipeline.run_agent cfg metadata s₁ (first :: rest) =
            .ok (r₁, s₁, 0)) := by
  constructor
  · intro P E cfg metadata store first rest record hic hq
    simp only [CookieFunBatchedAnalysisPipeline.run_agent]
    rw [hq, hic]
    simp
  · intro P E cfg metadata store first rest r₁ s₁ n₁ hic hq hrun
    simp only [CookieFunBatchedAnalysisPipeline.run_agent] at hrun
    rw [hq] at hrun
    simp only [CookieFunBatchedAnalysisPipeline.run_agent_compute] at hrun
    split at hrun
    · exact absurd hrun (by simp)
    · split at hrun
      · exact absurd hrun (by simp)
      · simp only [Except.ok.injEq, Prod.mk.injEq] at hrun
        obtain ⟨hr, hs, hn⟩ := hrun
        refine ⟨hn.symm, ?_⟩
        simp only [CookieFunBatchedAnalysisPipeline.run_agent]
        have hq₁ : BatchAnalysisRecord.query s₁ cfg.analysis_type
            first.ingestion_run_id
            (BatchAnalysisRecord.serialize_agent_ids ((first :: rest).map (·.id))) =
            some r₁ := by
          rw [← hs, ← hr]
          exact CookieFunBatchedAnalysisPipeline.query_append_self store _
        rw [hq₁, hic]
        simp

/-- Witness for C3: a fresh store, a singleton batch; the first run computes
and persists, the second returns the identical record with no further
invocation. -/
theorem claim_C3_cache_idempotence_witness :
    (1 : Nat) = 1 ∧
      CookieFunBatchedAnalysisPipeline.run_agent
          (⟨"t", fun _ => .ok "A", fun _ _ => .ok [], false⟩ :
            BatchedAnalysisConfig Unit Unit) []
          [⟨1, 7, BatchAnalysisRecord.serialize_agent_ids [1], "t", "A", [], []⟩]
          [⟨1, 7, ()⟩] =
        .ok (⟨1, 7, BatchAnalysisRecord.serialize_agent_ids [1], "t", "A", [], []⟩,
          [⟨1, 7, BatchAnalysisRecord.serialize_agent_ids [1], "t", "A", [], []⟩], 0) :=
  claim_C3_cache_idempotence.2
    (⟨"t", fun _ => .ok "A", fun _ _ => .ok [], false⟩ : BatchedAnalysisConfig Unit Unit)
    [] [] ⟨1, 7, ()⟩ []
    ⟨1, 7, BatchAnalysisRecord.serialize_agent_ids [1], "t", "A", [], []⟩
    [⟨1, 7, BatchAnalysisRecord.serialize_agent_ids [1], "t", "A", [], []⟩] 1
    rfl rfl rfl

/-- C8: the per-batch work unit raises the empty-batch configuration error
exactly on the empty batch, and the formation loop only ever seals non-empty
batches, so the error branch is unreachable for batches produced by the
stage. -/
theorem claim_C8_empty_batch_unreachable :
    (∀ {α : Type} (f : α → Bool) (bs mb : Nat) (input : List α),
        ∀ b ∈ CookieFunBatchedAnalysisPipeline.formBatches f bs mb input, b ≠ []) ∧
    (∀ {P E : Type} (cfg : BatchedAnalysisConfig P E) (metadata : PyDict)
        (store : List BatchAnalysisRecord) (batch : List (HistoricAgentRecord P)),
        CookieFunBatchedAnalysisPipeline.run_agent cfg metadata store batch =
          .error .configurationError ↔ batch = []) := by
  constructor
  · intro α f bs mb input b hb
    exact CookieFunBatchedAnalysisPipeline.formBatchesAux_ne_nil f bs mb input [] []
      (by simp) b hb
  · intro P E cfg metadata store batch
    constructor
    · intro h
      cases batch with
      | nil => rfl
      | cons first rest =>
          exfalso
          simp only [CookieFunBatchedAnalysisPipeline.run_agent] at h
          rcases hq : BatchAnalysisRecord.query store cfg.analysis_type
              first.ingestion_run_id
              (BatchAnalysisRecord.serialize_agent_ids ((first :: rest).map (·.id))) with
            _ | record
          · rw [hq] at h
            exact CookieFunBatchedAnalysisPipeline.run_agent_compute_ne_config
              cfg metadata store _ _ (first :: rest) h
          · rw [hq] at h
            cases hic : cfg.ignore_cached with
            | true =>
                rw [hic] at h
                simp only [if_true] at h
                exact CookieFunBatchedAnalysisPipeline.run_agent_compute_ne_config
                  cfg metadata store _ _ (first :: rest) h
            | false =>
                rw [hic] at h
                simp at h
    · intro h
      rw [h]
      rfl

/-- Witness for C8: the batch `[0,1]` really is produced by the formation
loop (so the membership hypothesis is satisfiable) and is non-empty; and on
the concrete empty batch the work unit raises the configuration error. -/
theorem claim_C8_empty_batch_unreachable_witness :
    ([0, 1] : List Nat) ≠ [] ∧
      CookieFunBatchedAnalysisPipeline.run_agent
          (⟨"t", fun _ => .ok "A", fun _ _ => .ok [], false⟩ :
            BatchedAnalysisConfig Unit Unit) [] []
          ([] : List (HistoricAgentRecord Unit)) =
        .error .configurationError :=
  ⟨claim_C8_empty_batch_unreachable.1 (fun _ : Nat => true) 2 1 [0, 1, 2, 3] [0, 1]
      (by decide),
    (claim_C8_empty_batch_unreachable.2
      (⟨"t", fun _ => .ok "A", fun _ _ => .ok [], false⟩ : BatchedAnalysisConfig Unit Unit)
      [] [] ([] : List (HistoricAgentRecord Unit))).mpr rfl⟩

/-- The error terminating `_run_batches`: either the `ValueError` that
`range(0, len(batches), concurrency)` raises when the step `concurrency` is
0 (before any iteration), or the failure of a work-unit task, which the
TaskGroup re-raises and which aborts the whole run. -/
inductive WaveError (E : Type) where
  | stepZero
  | task (e : E)
  deriving DecidableEq, Repr

/-- One wave of `CookieFunBatchedAnalysisPipeline._run_batches`
(src/analysis/pipelines/cookie_fun_batched_analysis.py, lines 83-89): the
TaskGroup runs one task per batch of the wave and the wave produces its
result list only if every task succeeded; if any task fails the whole group
fails.  The source yields within a wave in `as_completed` order, which is
nondeterministic; it is modelled here as submission order — no claim in this
development depends on the intra-wave order. -/
def runWave {β E R : Type} (run_task : β → Except E R) : List β → Except E (List R)
  | [] => .ok []
  | b :: rest =>
    match run_task b with
    | .error e => .error e
    | .ok r =>
      match runWave run_task rest with
      | .error e => .error e
      | .ok rs => .ok (r :: rs)

/-- The wave loop of `_run_batches` for a positive concurrency `cPred + 1`:
take the next `concurrency` batches as a wave; if the wave fails, the run
aborts with that task failure and yields nothing further; otherwise yield the
wave's results and continue with the remaining batches.  Returns the yielded
results together with the error that aborted the run, if any. -/
def runWavesPos {β E R : Type} (run_task : β → Except E R) (cPred : Nat) :
    List β → List R × Option (WaveError E)
  | [] => ([], none)
  | b :: rest =>
    match runWave run_task ((b :: rest).take (cPred + 1)) with
    | .error e => ([], some (.task e))
    | .ok rs =>
      let r := runWavesPos run_task cPred ((b :: rest).drop (cPred + 1))
      (rs ++ r.1, r.2)
termination_by l => l.length
decreasing_by simp [List.drop_succ_cons]; omega

/-- Embedding of `CookieFunBatchedAnalysisPipeline._run_batches` (lines 75-89):
`range(0, len(batches), concurrency)` raises `ValueError` for step 0; for a
positive step the batch list is processed in consecutive waves of
`concurrency`. -/
def run_batches {β E R : Type} (concurrency : Nat) (run_task : β → Except E R)
    (batches : List β) : List R × Option (WaveError E) :=
  match concurrency with
  | 0 => ([], some .stepZero)
  | cPred + 1 => runWavesPos run_task cPred batches

/-- The wave decomposition itself: the consecutive chunks of size
`cPred + 1` that the wave loop processes. -/
def wavesOfPos {β : Type} (cPred : Nat) : List β → List (List β)
  | [] => []
  | b :: rest =>
    (b :: rest).take (cPred + 1) :: wavesOfPos cPred ((b :: rest).drop (cPred + 1))
termination_by l => l.length
decreasing_by simp [List.drop_succ_cons]; omega

/-- The waves that `run_batches` processes for a given concurrency. -/
def wavesOf {β : Type} (concurrency : Nat) (batches : List β) : List (List β) :=
  match concurrency with
  | 0 => []
  | cPred + 1 => wavesOfPos cPred batches

/-- If one task of a wave fails, the whole wave fails. -/
theorem runWave_error_of_mem {β E R : Type} (run_task : β → Except E R) :
    ∀ (wave : List β) (b : β) (e₀ : E), b ∈ wave → run_task b = .error e₀ →
      ∃ e, runWave run_task wave = .error e := by
  intro wave
  induction wave with
  | nil => intro b e₀ hb; cases hb
  | cons x xs ih =>
      intro b e₀ hb he
      rcases List.mem_cons.1 hb with rfl | hb'
      · exact ⟨e₀, by rw [runWave, he]⟩
      · cases hx : run_task x with
        | error e => exact ⟨e, by rw [runWave, hx]⟩
        | ok r =>
            obtain ⟨e, he'⟩ := ih b e₀ hb' he
            exact ⟨e, by rw [runWave, hx, he']⟩

/-- Fail-fast shape of the wave loop: if every wave before index `k`
succeeds and wave `k` fails, the run yields exactly the results of the waves
before `k`, in order, and aborts with a task failure. -/
theorem runWavesPos_fail_fast {β E R : Type} (run_task : β → Except E R) (cPred : Nat) :
    ∀ (k : Nat) (batches : List β) (w : List β),
      (∀ i, i < k → ∃ rs, runWave run_task ((wavesOfPos cPred batches).getD i []) = .ok rs) →
      (wavesOfPos cPred batches)[k]? = some w →
      (∃ e₀, runWave run_task w = .error e₀) →
      ∃ e, runWavesPos run_task cPred batches =
        ((((wavesOfPos cPred batches).take k).map
            (fun wv => (runWave run_task wv).toOption.getD [])).flatten, some (.task e)) := by
  intro k
  induction k with
  | zero =>
      intro batches w hok hget hfail
      cases batches with
      | nil => rw [wavesOfPos] at hget; simp at hget
      | cons hd tl =>
          rw [wavesOfPos] at hget ⊢
          simp only [List.getElem?_cons_zero, Option.some.injEq] at hget
          obtain ⟨e₀, he₀⟩ := hfail
          rw [← hget] at he₀
          refine ⟨e₀, ?_⟩
          rw [runWavesPos, he₀]
          simp
  | succ k ihk =>
      intro batches w hok hget hfail
      cases batches with
      | nil => rw [wavesOfPos] at hget; simp at hget
      | cons hd tl =>
          rw [wavesOfPos] at hget hok ⊢
          simp only [List.getElem?_cons_succ] at hget
          obtain ⟨rs₀, hrs₀⟩ := hok 0 (Nat.succ_pos k)
          simp only [List.getD_cons_zero] at hrs₀
          have hok' : ∀ i, i < k →
              ∃ rs, runWave run_task
                ((wavesOfPos cPred ((hd :: tl).drop (cPred + 1))).getD i []) = .ok rs := by
            intro i hi
            have := hok (i + 1) (Nat.succ_lt_succ hi)
            simpa only [List.getD_cons_succ] using this
          obtain ⟨e, he⟩ := ihk ((hd :: tl).drop (cPred + 1)) w hok' hget hfail
          refine ⟨e, ?_⟩
          rw [runWavesPos]
          simp only [List.take_succ_cons, List.drop_succ_cons] at he hrs₀ ⊢
          rw [hrs₀]
          simp only [List.map_cons, List.flatten_cons, he]
          simp [hrs₀, Except.toOption]

/-- C5: fail-fast wave semantics of `run_batches`.  For every concurrency
bound ≥ 1, if every wave strictly before wave `k` succeeds and some
work-unit task inside wave `k` fails, then the run yields exactly the
results of the earlier waves (they are not retracted) and nothing from wave
`k`, and the failure aborts the whole run as a fatal task error. -/
theorem claim_C5_wave_fail_fast {β E R : Type} (concurrency : Nat)
    (run_task : β → Except E R) (batches : List β) (k : Nat) (w : List β) (b : β) (e₀ : E)
    (hc : 1 ≤ concurrency)
    (hok : ∀ i, i < k →
      ∃ rs, runWave run_task ((wavesOf concurrency batches).getD i []) = .ok rs)
    (hget : (wavesOf concurrency batches)[k]? = some w)
    (hb : b ∈ w) (he₀ : run_task b = .error e₀) :
    ∃ e, run_batches concurrency run_task batches =
      ((((wavesOf concurrency batches).take k).map
          (fun wv => (runWave run_task wv).toOption.getD [])).flatten, some (.task e)) := by
  cases concurrency with
  | zero => omega
  | succ cPred =>
      simp only [wavesOf] at hok hget ⊢
      simp only [run_batches]
      exact runWavesPos_fail_fast run_task cPred k batches w hok hget
        (runWave_error_of_mem run_task w b e₀ hb he₀)

/-- Witness for C5 at the spec's concrete shape: concurrency 3, six batches
(two waves), the task for batch 5 fails, so wave 1 yields nothing while wave
0's results [1,2,3] stand, and the run aborts with the task failure. -/
theorem claim_C5_wave_fail_fast_witness :
    ∃ e, run_batches 3 (fun b : Nat => if b = 5 then Except.error 0 else Except.ok b)
        [1, 2, 3, 4, 5, 6] = ([1, 2, 3], some (.task e)) := by
  have hwaves : wavesOf 3 ([1, 2, 3, 4, 5, 6] : List Nat) = [[1, 2, 3], [4, 5, 6]] := by
    rw [wavesOf]
    rw [wavesOfPos]
    rw [show ([1, 2, 3, 4, 5, 6] : List Nat).drop 3 = [4, 5, 6] by rfl]
    rw [wavesOfPos]
    rw [show ([4, 5, 6] : List Nat).drop 3 = [] by rfl]
    rw [wavesOfPos]
    rfl
  obtain ⟨e, he⟩ := claim_C5_wave_fail_fast 3
    (fun b : Nat => if b = 5 then Except.error 0 else Except.ok b)
    [1, 2, 3, 4, 5, 6] 1 [4, 5, 6] 5 0
    (by decide)
    (fun i hi => by
      interval_cases i
      exact ⟨[1, 2, 3], by rw [hwaves]; rfl⟩)
    (by rw [hwaves]; rfl)
    (by decide) (by rfl)
  refine ⟨e, ?_⟩
  rw [he, hwaves]
  have hflat : ((([[1, 2, 3], [4, 5, 6]] : List (List Nat)).take 1).map
      (fun wv => (runWave (fun b : Nat => if b = 5 then Except.error 0 else Except.ok b)
        wv).toOption.getD [])).flatten = [1, 2, 3] := by rfl
  rw [hflat]

/-- The stage interface (src/analysis/pipelines/_base.py, lines 8-12): a
stage consumes an input item sequence and a metadata map and produces an
output item sequence; a run's lazy output stream is modelled extensionally by
the list of items it yields. -/
structure Pipeline (I O : Type) where
  run : List I → PyDict → List O

/-- Embedding of `Pipeline.__ror__` (src/analysis/pipelines/_base.py, lines 14-25):
`first_pipeline | second_pipeline` invokes `second_pipeline.__ror__` and
builds the ComposedPipeline, whose run feeds the first stage's output stream
as the second stage's input, passing the same metadata map to both stages. -/
def Pipeline.ror {T I O : Type} (second_pipeline : Pipeline I O)
    (first_pipeline : Pipeline T I) : Pipeline T O :=
  ⟨fun input metadata => second_pipeline.run (first_pipeline.run input metadata) metadata⟩

/-- C9: for every pair of stages, input sequence and metadata map, the
composed stage's run yields exactly the output of running the second stage on
the output of running the first stage on the input, with the same metadata
map passed to both stages. -/
theorem claim_C9_composition {T I O : Type} (A : Pipeline T I) (B : Pipeline I O)
    (input : List T) (metadata : PyDict) :
    (Pipeline.ror B A).run input metadata = B.run (A.run input metadata) metadata := rfl

namespace CookieFunBatchedAnalysisPipeline

/-- The metadata dict built by `CookieFunBatchedAnalysisPipeline.run`
(lines 45-52): a fresh dict literal listing the four stage defaults, then
`**self.extra_metadata`, then `**metadata`, so on a key collision the
caller-supplied entry wins over the extras and the defaults. -/
def mergedMetadata (batch_size max_batches concurrency : Nat) (ignore_cached : Bool)
    (extra_metadata metadata : PyDict) : PyDict :=
  [("batch_size", PyVal.nat batch_size), ("max_batches", PyVal.nat max_batches),
    ("concurrency", PyVal.nat concurrency), ("ignore_cached", PyVal.bool ignore_cached)]
    ++ extra_metadata ++ metadata

end CookieFunBatchedAnalysisPipeline

/-- Accumulator form of `pyLookup`'s fold: folding the lookup step over a
dict either finds the last entry for the key, irrespective of the
accumulator, or returns the accumulator untouched. -/
theorem pyLookup_foldl_acc (k : String) (b : PyDict) :
    ∀ acc : Option PyVal,
      b.foldl (fun acc kv => if kv.1 = k then some kv.2 else acc) acc =
        match b.foldl (fun acc kv => if kv.1 = k then some kv.2 else acc) none with
        | some v => some v
        | none => acc := by
  induction b with
  | nil => intro acc; rfl
  | cons kv b' ih =>
      intro acc
      simp only [List.foldl_cons]
      rw [ih (if kv.1 = k then some kv.2 else acc),
        ih (if kv.1 = k then some kv.2 else none)]
      cases hfold : b'.foldl (fun acc kv => if kv.1 = k then some kv.2 else acc) none with
      | some v => rfl
      | none =>
          by_cases hk : kv.1 = k
          · simp [hk]
          · simp [hk]

/-- Lookup across a dict merge: entries of the right (later-splatted) dict
win, and keys absent there fall back to the left dict. -/
theorem pyLookup_append (a b : PyDict) (k : String) :
    pyLookup (a ++ b) k =
      match pyLookup b k with
      | some v => some v
      | none => pyLookup a k := by
  unfold pyLookup
  rw [List.foldl_append]
  exact pyLookup_foldl_acc k b _

/-- C10: neither stage mutates the caller's metadata map.  Both build a fresh
merged dict by splatting (a pure copy in this embedding, as `{**a, **b}` is in
Python — the caller's entry list is untouched).  Batching stage: the merged
dict is the defaults-and-extras entries followed by the caller's entries
verbatim, so every caller-supplied entry survives the merge (caller wins on
collision).  Recursion stage: the merged dict is the caller's entries
verbatim followed by the `recursion_depth` entry, so the depth is visible
downstream under its new key and every other key reads exactly as in the
caller's map. -/
theorem claim_C10_metadata_preserved :
    (∀ (bs mb c : Nat) (ic : Bool) (extra metadata : PyDict),
        (∃ defaults_and_extras,
          CookieFunBatchedAnalysisPipeline.mergedMetadata bs mb c ic extra metadata =
            defaults_and_extras ++ metadata) ∧
        (∀ k v, pyLookup metadata k = some v →
          pyLookup
            (CookieFunBatchedAnalysisPipeline.mergedMetadata bs mb c ic extra metadata) k =
            some v)) ∧
    (∀ (metadata : PyDict) (depth : Nat),
        (∃ depth_entry,
          RecursionPipeline.mergedMetadata metadata depth = metadata ++ depth_entry) ∧
        pyLookup (RecursionPipeline.mergedMetadata metadata depth) "recursion_depth" =
          some (.nat depth) ∧
        (∀ k, k ≠ "recursion_depth" →
          pyLookup (RecursionPipeline.mergedMetadata metadata depth) k =
            pyLookup metadata k)) := by
  constructor
  · intro bs mb c ic extra metadata
    constructor
    · exact ⟨_, rfl⟩
    · intro k v hv
      unfold CookieFunBatchedAnalysisPipeline.mergedMetadata
      rw [pyLookup_append]
      rw [hv]
  · intro metadata depth
    refine ⟨⟨_, rfl⟩, ?_, ?_⟩
    · unfold RecursionPipeline.mergedMetadata
      rw [pyLookup_append]
      simp [pyLookup]
    · intro k hk
      unfold RecursionPipeline.mergedMetadata
      rw [pyLookup_append]
      have : pyLookup [("recursion_depth", PyVal.nat depth)] k = none := by
        have hne : ¬ ("recursion_depth" = k) := fun h => hk h.symm
        simp [pyLookup, hne]
      rw [this]

/-- Witness for C10: a caller map carrying a `model` entry survives the
batching stage's merge unchanged, and reads back identically through the
recursion stage's merge, whose hypotheses are discharged at the concrete
key. -/
theorem claim_C10_metadata_preserved_witness :
    pyLookup (CookieFunBatchedAnalysisPipeline.mergedMetadata 15 20 10 false []
        [("model", PyVal.str "m")]) "model" = some (PyVal.str "m") ∧
      pyLookup (RecursionPipeline.mergedMetadata [("model", PyVal.str "m")] 0) "model" =
        pyLookup [("model", PyVal.str "m")] "model" :=
  ⟨(claim_C10_metadata_preserved.1 15 20 10 false [] [("model", PyVal.str "m")]).2
      "model" (PyVal.str "m") (by decide),
    (claim_C10_metadata_preserved.2 [("model", PyVal.str "m")] 0).2.2 "model" (by decide)⟩

end CookieFun
